import Mathlib

/-!
Verification of the polling core of `xau-tray` (`src/src-tauri/src/lib.rs`).

Shallow embedding conventions:
* Rust `String`/`&str` values are modelled as `List Char` (named `Str` below);
  `str::trim`, `str::lines` and `join("\n")` are implemented over that type.
* Rust `u64`/`usize` become `Nat` (overflow is irrelevant at the magnitudes the
  program manipulates: seconds, list indices).
* `f64` prices appear in the code only as parsed, stored and order-compared
  values, so they are modelled as `ℚ`; the numeric-string parsers themselves
  are abstract parameters of the embedding (the claims under verification are
  about the control flow around parsing, never about parsing itself).
* `HashMap` becomes an association list with insert-or-replace; only key
  membership and lookup matter to the claims.
* The network call `fetch_batch_quotes` is split at the transport boundary:
  the pure post-response processing (`ret` check, per-item numeric parsing) is
  embedded directly, and the failover loop of `start_polling` is embedded as a
  function of an abstract per-token fetch result.
-/

namespace XauTray

/-- Strings from the Rust source, modelled as lists of characters. -/
abbrev Str := List Char

/-- Whitespace predicate backing the model of Rust `str::trim`. The source
trims Unicode whitespace; every string the program itself constructs only
ever carries these ASCII whitespace characters, on which the two agree. -/
def isWS (c : Char) : Bool :=
  c = ' ' || c = '\t' || c = '\n' || c = '\r'

/-- Model of Rust `str::trim`: drop whitespace from both ends. -/
def trim (s : Str) : Str :=
  ((s.dropWhile isWS).reverse.dropWhile isWS).reverse

/-- Helper for `rustLines`: `cur` is the current (reversed) line; a line that
was terminated by `'\n'` has a trailing `'\r'` stripped (Rust treats `\r\n`
as a line terminator), which on the reversed accumulator is a leading `'\r'`. -/
def stripCRrev (cur : Str) : Str :=
  match cur with
  | c :: rest => if c = '\r' then rest.reverse else (c :: rest).reverse
  | [] => []

/-- Accumulating worker for `rustLines`. -/
def linesAux (cur : Str) : Str → List Str
  | [] => if cur = [] then [] else [cur.reverse]
  | c :: rest =>
    if c = '\n' then stripCRrev cur :: linesAux [] rest
    else linesAux (c :: cur) rest

/-- Model of Rust `str::lines`: split at `\n` / `\r\n`, final terminator
optional, empty string yields no lines. -/
def rustLines (s : Str) : List Str :=
  linesAux [] s

/-- Model of Rust `Vec::join("\n")` on a list of strings. -/
def joinNl : List Str → Str
  | [] => []
  | [t] => t
  | t :: rest => t ++ '\n' :: joinNl rest

/-- Source `parse_tokens` (lib.rs lines 286-293): split the token text into
lines, trim each line, keep the non-empty ones. -/
def parse_tokens (token : Str) : List Str :=
  ((rustLines token).map trim).filter (fun line => line ≠ [])

/-- Source constant `ROTATE_MIN_SECONDS` (lib.rs line 19). -/
def ROTATE_MIN_SECONDS : Nat := 3

/-- Source constant `ERROR_BACKOFF_MAX_SECONDS` (lib.rs line 21). -/
def ERROR_BACKOFF_MAX_SECONDS : Nat := 300

/-- Source `default_refresh_seconds` (lib.rs lines 61-63). -/
def default_refresh_seconds : Nat := 10

/-- Source `default_rotate_seconds` (lib.rs lines 66-68). -/
def default_rotate_seconds : Nat := 10

/-- Source struct `SymbolItem` (lib.rs lines 26-30). -/
structure SymbolItem where
  code : Str
  label : Str
deriving DecidableEq

/-- Source enum `DisplayMode` (lib.rs lines 33-38). -/
inductive DisplayMode where
  | Rotate
  | Fixed
deriving DecidableEq

/-- Source enum `ApiType` (lib.rs lines 41-46). -/
inductive ApiType where
  | Commodity
  | Stock
deriving DecidableEq

/-- Source struct `QuoteSettings` (lib.rs lines 71-89). -/
@[ext]
structure QuoteSettings where
  token : Str
  symbols : List SymbolItem
  display_mode : DisplayMode
  api_type : ApiType
  refresh_seconds : Nat
  rotate_seconds : Nat
  fixed_symbol : Option Str
  use_system_proxy : Bool
deriving DecidableEq

/-- Source `default_symbols` (lib.rs lines 143-158). -/
def default_symbols : List SymbolItem :=
  [ { code := "XAUUSD".toList, label := "黄金".toList },
    { code := "Silver".toList, label := "白银".toList },
    { code := "BTCUSDT".toList, label := "比特币".toList } ]

/-- Source `default_stock_symbols` (lib.rs lines 161-176). -/
def default_stock_symbols : List SymbolItem :=
  [ { code := "000001.SH".toList, label := "上证指数".toList },
    { code := "HSI.HK".toList, label := "恒生指数".toList },
    { code := ".IXIC.US".toList, label := "纳斯达克指数".toList } ]

/-- Model of Rust `u64::clamp(lo, hi)`. -/
def clampNat (x lo hi : Nat) : Nat :=
  if x < lo then lo else if hi < x then hi else x

/-- The symbol-cleaning loop inside `normalize_settings` (lib.rs lines
237-250): trim each code, skip empty or already-seen codes, trim the label
and default it to the code when blank. The `HashSet` of seen codes is
modelled as a list. -/
def normSymbolsAux (seen : List Str) : List SymbolItem → List SymbolItem
  | [] => []
  | symbol :: rest =>
    let code := trim symbol.code
    if code = [] ∨ code ∈ seen then normSymbolsAux seen rest
    else
      let label := trim symbol.label
      { code := code, label := if label = [] then code else label } ::
        normSymbolsAux (code :: seen) rest

/-- First element's code; the source indexes `settings.symbols[0]` at a point
where the list is provably non-empty (lib.rs line 278). -/
def firstCode : List SymbolItem → Str
  | [] => []
  | s :: _ => s.code

/-- Source `normalize_settings` (lib.rs lines 232-283): rejoin the parsed
token lines, clean the symbol list, fall back to the category default when it
came out empty, force `refresh_seconds` to its default, clamp
`rotate_seconds`, and in `Fixed` mode replace a `fixed_symbol` that is absent
from the list by the first symbol's code. -/
def normalize_settings (s : QuoteSettings) : QuoteSettings :=
  let tokens := parse_tokens s.token
  let symbols0 := normSymbolsAux [] s.symbols
  let symbols :=
    if symbols0 = [] then
      match s.api_type with
      | ApiType.Commodity => default_symbols
      | ApiType.Stock => default_stock_symbols
    else symbols0
  let fixed :=
    if s.display_mode = DisplayMode.Fixed then
      let f := trim ((s.fixed_symbol).getD [])
      if symbols.any (fun sym => decide (sym.code = f)) then some f
      else some (firstCode symbols)
    else s.fixed_symbol
  { token := joinNl tokens
    symbols := symbols
    display_mode := s.display_mode
    api_type := s.api_type
    refresh_seconds := default_refresh_seconds
    rotate_seconds := clampNat s.rotate_seconds ROTATE_MIN_SECONDS 3600
    fixed_symbol := fixed
    use_system_proxy := s.use_system_proxy }

/-- Source `pick_display_symbol` (lib.rs lines 703-720): `Rotate` mode indexes
by `rotate_index`; `Fixed` mode looks the configured code up with `find` and
falls back to index 0 only when `fixed_symbol` is `None`. -/
def pick_display_symbol (settings : QuoteSettings) (rotate_index : Nat) :
    Option SymbolItem :=
  if settings.symbols = [] then none
  else
    match settings.display_mode with
    | DisplayMode.Rotate => settings.symbols.get? rotate_index
    | DisplayMode.Fixed =>
      match settings.fixed_symbol with
      | some code => settings.symbols.find? (fun s => decide (s.code = code))
      | none => settings.symbols.get? 0

/-- Source struct `FetchError` (lib.rs lines 390-394). -/
structure FetchError where
  detail : Str
  msg : Option Str
deriving DecidableEq

/-- Source `FetchError::new` (lib.rs lines 397-399). -/
def FetchError.new (detail : Str) : FetchError :=
  { detail := detail, msg := none }

/-- Source `FetchError::with_msg` (lib.rs lines 401-403). -/
def FetchError.with_msg (detail : Str) (msg : Option Str) : FetchError :=
  { detail := detail, msg := msg }

/-- The backoff update of `start_polling` (lib.rs lines 824 and 845-852):
success resets to 0; a first failure sets `max(base*3, base)`, a repeated
failure doubles capped at 300; either failure result is floored at `base`. -/
def next_backoff (success : Bool) (base current : Nat) : Nat :=
  if success then 0
  else
    let b :=
      if current = 0 then max (base * 3) base
      else min (current * 2) ERROR_BACKOFF_MAX_SECONDS
    if b < base then base else b

/-- The next-refresh delay computation of `start_polling` (lib.rs lines
903-907): the backoff capped at 300 when nonzero, else the base interval. -/
def effective_refresh_seconds (base backoff : Nat) : Nat :=
  if 0 < backoff then min backoff ERROR_BACKOFF_MAX_SECONDS else base

/-- The token-failover `while` loop of `start_polling` (lib.rs lines
793-819), with the sequence of attempted cursors kept as ghost history.
`fetchAt i` stands for `fetch_batch_quotes(&tokens[i], ...)`; `n` is the
token count; the fuel is `tokens.len() - attempt`. Returns the attempted
cursors in order, the successful payload with its cursor when one attempt
succeeded, and the final `last_attempt_error`. -/
def failoverAux {α : Type} (fetchAt : Nat → Except FetchError α) (n : Nat) :
    Nat → Nat → Option FetchError →
      List Nat × Option (α × Nat) × Option FetchError
  | 0, _, lastErr => ([], none, lastErr)
  | r + 1, cursor, lastErr =>
    match fetchAt cursor with
    | Except.ok payload => ([cursor], some (payload, cursor), lastErr)
    | Except.error err =>
      let out := failoverAux fetchAt n r ((cursor + 1) % n) (some err)
      (cursor :: out.1, out.2.1, out.2.2)

/-- Outcome of one refresh cycle's failover block (lib.rs lines 787-844):
the fetched map when some token succeeded, the resulting `token_index`, the
cursors attempted (ghost), and the resulting `last_error`. -/
structure CycleFetchOutcome (α : Type) where
  map : Option α
  token_index : Nat
  attempts : List Nat
  last_error : Option FetchError
deriving DecidableEq

/-- Rust index `tokens[i]` at the in-bounds call sites of the loop. -/
def tokenAt (tokens : List Str) (i : Nat) : Str :=
  tokens.getD i []

/-- The failover block of `start_polling` (lib.rs lines 787-844): reset
`token_index` to 0 when out of range, run the round-robin loop, and on
success pin `token_index` to the succeeding cursor and clear `last_error`
(line 823), while on total failure keep the last attempt's error and reset
`token_index` to 0 (lines 843-844). `fetch` abstracts
`fetch_batch_quotes(token, codes, api_type, use_system_proxy)`. -/
def run_failover {α : Type} (tokens : List Str)
    (fetch : Str → Except FetchError α) (token_index : Nat) :
    CycleFetchOutcome α :=
  let n := tokens.length
  let start := if n ≤ token_index then 0 else token_index
  let out := failoverAux (fun i => fetch (tokenAt tokens i)) n n start none
  match out.2.1 with
  | some (m, idx) =>
    { map := some m, token_index := idx, attempts := out.1, last_error := none }
  | none =>
    { map := none, token_index := 0, attempts := out.1, last_error := out.2.2 }

/-- Source struct `ApiKline` (lib.rs lines 113-118): the three numeric fields
arrive as strings. -/
structure ApiKline where
  timestamp : Str
  open_price : Str
  close_price : Str
deriving DecidableEq

/-- Source struct `BatchItem` (lib.rs lines 136-140). -/
structure BatchItem where
  code : Str
  kline_data : List ApiKline
deriving DecidableEq

/-- Source struct `BatchResp` (lib.rs lines 121-127), with `data` inlined. -/
structure BatchResp where
  ret : Int
  msg : Option Str
  kline_list : List BatchItem
deriving DecidableEq

/-- Model of `HashMap::insert` as a shadowing cons on an association list.
Every map of the polling core (`last_prices`, `trends`, the fetched price
map) is observed exclusively through key lookup (`HashMap::get`), and for
lookup a shadowing cons is exactly insert-or-replace. -/
def mapInsert {α : Type} (m : List (Str × α)) (k : Str) (v : α) :
    List (Str × α) :=
  (k, v) :: m

/-- Model of `HashMap::get`: first (most recently inserted) binding wins. -/
def mapLookup {α : Type} (m : List (Str × α)) (k : Str) : Option α :=
  (m.find? (fun p => decide (p.1 = k))).map (fun p => p.2)

/-- One iteration of the map-building loop of `fetch_batch_quotes` (lib.rs
lines 375-385): take the item's first kline, parse the three numeric strings
with the abstract parsers `parseF` (Rust `str::parse::<f64>`) and `parseU`
(`str::parse::<u64>`), and insert `code -> (close, timestamp, open)` only
when all three parses succeed; anything else is skipped silently. -/
def price_map_step (parseF : Str → Option ℚ) (parseU : Str → Option Nat)
    (map : List (Str × (ℚ × Nat × ℚ))) (item : BatchItem) :
    List (Str × (ℚ × Nat × ℚ)) :=
  match item.kline_data.head? with
  | some kline =>
    match parseF kline.close_price, parseU kline.timestamp,
        parseF kline.open_price with
    | some price, some ts, some openp =>
      mapInsert map item.code (price, ts, openp)
    | _, _, _ => map
  | none => map

/-- The whole map-building loop of `fetch_batch_quotes` (lib.rs lines
374-385). -/
def build_price_map (parseF : Str → Option ℚ) (parseU : Str → Option Nat)
    (items : List BatchItem) : List (Str × (ℚ × Nat × ℚ)) :=
  items.foldl (price_map_step parseF parseU) []

/-- Detail text `format!("api ret={}", ret)` (lib.rs line 368). -/
def apiRetDetail (ret : Int) : Str :=
  "api ret=".toList ++ (toString ret).toList

/-- The response-processing tail of `fetch_batch_quotes` (lib.rs lines
361-386), taking the already-decoded envelope: a non-200 `ret` becomes a
`FetchError` carrying the server message, otherwise the price map is built
item by item and the call succeeds. -/
def fetch_batch_quotes (parseF : Str → Option ℚ) (parseU : Str → Option Nat)
    (payload : BatchResp) :
    Except FetchError (List (Str × (ℚ × Nat × ℚ))) :=
  if payload.ret ≠ 200 then
    Except.error (FetchError.with_msg (apiRetDetail payload.ret) payload.msg)
  else
    Except.ok (build_price_map parseF parseU payload.kline_list)

/-- Success/parse status of one response item, as tested by the map-building
loop: a first kline exists and all three numeric fields parse. -/
def item_parses (parseF : Str → Option ℚ) (parseU : Str → Option Nat)
    (item : BatchItem) : Bool :=
  match item.kline_data.head? with
  | some kline =>
    (parseF kline.close_price).isSome && (parseU kline.timestamp).isSome &&
      (parseF kline.open_price).isSome
  | none => false

/-- The trend glyph chosen in the success branch of `start_polling` (lib.rs
lines 827-833). -/
def trend_of (price openp : ℚ) : Str :=
  if openp < price then "▲".toList
  else if price < openp then "▼".toList
  else "—".toList

/-- State mutated by the success branch's per-symbol loop. -/
structure SuccessUpdate where
  last_prices : List (Str × ℚ)
  trends : List (Str × Str)
  success : Nat
deriving DecidableEq

/-- One iteration of the per-symbol loop of the success branch (lib.rs lines
825-840): a symbol found in the fetched map gets its price cached, its trend
classified and the success counter bumped; a symbol absent from the map gets
trend "—" (and keeps any cached price). -/
def success_step (map : List (Str × (ℚ × Nat × ℚ))) (st : SuccessUpdate)
    (symbol : SymbolItem) : SuccessUpdate :=
  match mapLookup map symbol.code with
  | some (price, _, openp) =>
    { last_prices := mapInsert st.last_prices symbol.code price
      trends := mapInsert st.trends symbol.code (trend_of price openp)
      success := st.success + 1 }
  | none =>
    { st with trends := mapInsert st.trends symbol.code "—".toList }

/-- The whole per-symbol loop of the success branch (lib.rs lines 825-840). -/
def apply_success_update (map : List (Str × (ℚ × Nat × ℚ)))
    (symbols : List SymbolItem) (st : SuccessUpdate) : SuccessUpdate :=
  symbols.foldl (success_step map) st

/-- Ghost trace of the `rotate_index` bookkeeping across poll-loop
iterations. Each input triple is one iteration's snapshot: the symbol count
`n`, whether the refresh branch reaches `pick_display_symbol(settings,
rotate_index)` (lib.rs line 881), and whether the rotation branch fires
(lib.rs lines 912-915). An iteration first applies the clamp of line
766-768, then the rotation branch advances `(rotate_index + 1) %
symbols.len()` before its own use. `n = 0` models the empty-symbol
short-circuit (lines 756-764): no use, index untouched. The result collects
every `(index used, symbol count at that use)` pair. -/
def poll_rotate_trace (r : Nat) : List (Nat × Bool × Bool) → List (Nat × Nat)
  | [] => []
  | (n, useRefresh, doRotate) :: rest =>
    if n = 0 then poll_rotate_trace r rest
    else
      let r1 := if n ≤ r then 0 else r
      let used1 := if useRefresh then [(r1, n)] else []
      let r2 := if doRotate then (r1 + 1) % n else r1
      let used2 := if doRotate then [(r2, n)] else []
      used1 ++ used2 ++ poll_rotate_trace r2 rest

/-- Spec-side restatement of the symbol normalization, written from the
spec's words ("unique codes, case-sensitive, first occurrence wins; labels
default to code when blank"): keep the first occurrence of each trimmed
non-empty code, drop the later duplicates, and blank labels become the code.
To be compared against the source-derived `normSymbolsAux` (claim C9). -/
def specNormalize : List SymbolItem → List SymbolItem
  | [] => []
  | sym :: rest =>
    if trim sym.code = [] then specNormalize rest
    else
      { code := trim sym.code
        label :=
          if trim sym.label = [] then trim sym.code else trim sym.label } ::
        specNormalize
          (rest.filter (fun s2 => decide (trim s2.code ≠ trim sym.code)))
termination_by l => l.length
decreasing_by
  · simp only [List.length_cons]
    exact Nat.lt_succ_of_le (Nat.le_refl _)
  · simp only [List.length_cons]
    exact Nat.lt_succ_of_le (List.length_filter_le _ _)

/-- Concrete `Fixed`-mode settings whose `fixed_symbol` names a code absent
from the (non-empty) symbol list; used to settle claim C1. -/
def c1Settings : QuoteSettings :=
  { token := []
    symbols := [ { code := "A".toList, label := "A".toList } ]
    display_mode := DisplayMode.Fixed
    api_type := ApiType.Commodity
    refresh_seconds := 10
    rotate_seconds := 10
    fixed_symbol := some "B".toList
    use_system_proxy := false }

/-- Credential list `[A, B, C]` of the claim C2 scenario. -/
def abcTokens : List Str :=
  ["A".toList, "B".toList, "C".toList]

/-- Fetch behavior of the claim C2 scenario: only credential `C` succeeds. -/
def onlyCFetch : Str → Except FetchError Nat := fun t =>
  if t = "C".toList then Except.ok 7 else Except.error (FetchError.new t)

/-- Credential list `[A, B]` of the claim C3 scenario. -/
def abTokens : List Str :=
  ["A".toList, "B".toList]

/-- Fetch behavior where every credential fails, with the failing credential
recorded in the error detail. -/
def allFailFetch : Str → Except FetchError Nat := fun t =>
  Except.error (FetchError.new t)

/-- Per-index error of `allFailFetch` over `abTokens`. -/
def abErr (i : Nat) : FetchError :=
  FetchError.new (tokenAt abTokens i)

/-- Tiny concrete numeric parser used by the claim C7 witness. -/
def wParseF : Str → Option ℚ := fun s =>
  if s = "105".toList then some 105
  else if s = "100".toList then some 100
  else none

/-- Tiny concrete integer parser used by the claim C7 witness. -/
def wParseU : Str → Option Nat := fun s =>
  if s = "1".toList then some 1 else none

/-- Concrete successful response (`ret = 200`) with one parseable item, one
item with an unparsable timestamp and one item with no kline data. -/
def wPayload : BatchResp :=
  { ret := 200
    msg := none
    kline_list :=
      [ { code := "GOOD".toList
          kline_data :=
            [ { timestamp := "1".toList
                open_price := "100".toList
                close_price := "105".toList } ] },
        { code := "BAD".toList
          kline_data :=
            [ { timestamp := "oops".toList
                open_price := "100".toList
                close_price := "105".toList } ] },
        { code := "EMPTY".toList, kline_data := [] } ] }

/-- Concrete price map for the claim C8 witness. -/
def c8Map : List (Str × (ℚ × Nat × ℚ)) :=
  [("GOLD".toList, (105, 1, 100))]

/-- Concrete symbol list for the claim C8 witness: one symbol present in the
response map and one absent from it. -/
def c8Symbols : List SymbolItem :=
  [ { code := "GOLD".toList, label := "Gold".toList },
    { code := "MISS".toList, label := "Miss".toList } ]

/-- Concrete symbol list with duplicates and blanks for the claim C9
witness. -/
def c9Symbols : List SymbolItem :=
  [ { code := " A ".toList, label := "".toList },
    { code := "A".toList, label := "x".toList },
    { code := "".toList, label := "y".toList },
    { code := "B".toList, label := " b ".toList } ]

/-! ### Association-list lemmas -/

lemma mapLookup_mapInsert {α : Type} (m : List (Str × α)) (k k' : Str)
    (v : α) :
    mapLookup (mapInsert m k' v) k =
      if k' = k then some v else mapLookup m k := by
  by_cases hk : k' = k
  · simp [mapLookup, mapInsert, List.find?_cons, hk]
  · simp [mapLookup, mapInsert, List.find?_cons, hk]

/-- Unfolding equation of `next_backoff` in the failure case. -/
lemma next_backoff_false (base cur : Nat) :
    next_backoff false base cur =
      (let b :=
        if cur = 0 then max (base * 3) base
        else min (cur * 2) ERROR_BACKOFF_MAX_SECONDS
      if b < base then base else b) :=
  rfl

/-! ### Claim C4 — backoff policy -/

/-- C4 (amended): on success the backoff resets to 0; a first failure sets it
to `max(base*3, base)`; a repeated failure sets it to `min(current*2, 300)`
floored at `base`; with `base = 10` the successive failure backoffs are
30, 60, 120, 240, 300, 300; and the effective next-refresh delay is the
backoff capped at 300 when it is nonzero, else the base interval. -/
theorem claim_C4 :
    (∀ base cur, next_backoff true base cur = 0) ∧
    (∀ base, next_backoff false base 0 = max (base * 3) base) ∧
    (∀ base cur, 0 < cur →
      next_backoff false base cur = max base (min (cur * 2) 300)) ∧
    ((List.range 6).map
        (fun k => (fun c => next_backoff false 10 c)^[k + 1] 0) =
      [30, 60, 120, 240, 300, 300]) ∧
    (∀ base backoff,
      effective_refresh_seconds base backoff =
        if 0 < backoff then min backoff 300 else base) := by
  refine ⟨fun base cur => rfl, fun base => ?_, fun base cur hcur => ?_,
    by decide, fun base backoff => rfl⟩
  · rw [next_backoff_false]
    simp only [if_pos rfl]
    exact if_neg (Nat.not_lt.mpr (Nat.le_max_right _ _))
  · have hne : cur ≠ 0 := Nat.pos_iff_ne_zero.mp hcur
    rw [next_backoff_false]
    simp only [if_neg hne, ERROR_BACKOFF_MAX_SECONDS]
    rcases Nat.lt_or_ge (min (cur * 2) 300) base with h | h
    · rw [if_pos h, max_eq_left (Nat.le_of_lt h)]
    · rw [if_neg (Nat.not_lt.mpr h), max_eq_right h]

/-- C4 counterexample to the claim as stated: with `base = 150` a first
failed cycle produces the nonzero backoff 450, yet the effective next-refresh
delay is 300, not the backoff value. -/
theorem claim_C4_counterexample :
    next_backoff false 150 0 = 450 ∧
    effective_refresh_seconds 150 (next_backoff false 150 0) ≠
      next_backoff false 150 0 := by
  decide

/-- C4 witness: the amended claim applied at `base = 10`, `current = 30`. -/
theorem claim_C4_witness :
    next_backoff false 10 30 = max 10 (min (30 * 2) 300) :=
  claim_C4.2.2.1 10 30 (by decide)

/-! ### Claim C6 — rotate-index invariant -/

/-- C6: along any sequence of poll-loop iterations, every index at which the
loop selects a symbol is strictly below the symbol count of that iteration's
snapshot, including iterations whose snapshot shrank the list below the
previous `rotate_index` and uses right after a rotation advance. -/
theorem claim_C6 (inputs : List (Nat × Bool × Bool)) (r : Nat)
    (p : Nat × Nat) (hp : p ∈ poll_rotate_trace r inputs) : p.1 < p.2 := by
  induction inputs generalizing r with
  | nil => simp [poll_rotate_trace] at hp
  | cons input rest ih =>
    obtain ⟨n, useRefresh, doRotate⟩ := input
    by_cases hn : n = 0
    · rw [poll_rotate_trace, if_pos hn] at hp
      exact ih r hp
    · have hpos : 0 < n := Nat.pos_of_ne_zero hn
      rw [poll_rotate_trace, if_neg hn] at hp
      simp only [List.mem_append] at hp
      rcases hp with (h1 | h2) | h3
      · by_cases hu : useRefresh = true
        · rw [if_pos hu, List.mem_singleton] at h1
          subst h1
          by_cases hr : n ≤ r
          · simpa [hr] using hpos
          · simp only [if_neg hr]
            omega
        · simp [hu] at h1
      · by_cases hd : doRotate = true
        · rw [if_pos hd, List.mem_singleton] at h2
          subst h2
          simp only [if_pos hd]
          exact Nat.mod_lt _ hpos
        · simp [hd] at h2
      · exact ih _ h3

/-- C6 witness: a 3-symbol snapshot followed by a snapshot shrunk to one
symbol, starting from `rotate_index = 2`, with both use sites firing. -/
theorem claim_C6_witness :
    ((2 : Nat), (3 : Nat)) ∈
      poll_rotate_trace 2 [(3, true, true), (1, true, true)] ∧
    (2 : Nat) < 3 :=
  ⟨by decide,
    claim_C6 [(3, true, true), (1, true, true)] 2 (2, 3) (by decide)⟩

/-! ### Claim C8 — trend classification -/

lemma apply_success_update_not_mem (map : List (Str × (ℚ × Nat × ℚ)))
    (symbols : List SymbolItem) (st : SuccessUpdate) (c : Str)
    (hc : c ∉ symbols.map (fun s => s.code)) :
    mapLookup (apply_success_update map symbols st).trends c =
      mapLookup st.trends c := by
  induction symbols generalizing st with
  | nil => rfl
  | cons s0 rest ih =>
    simp only [List.map_cons, List.mem_cons, not_or] at hc
    rw [apply_success_update, List.foldl_cons]
    rw [← apply_success_update, ih _ hc.2]
    rw [success_step]
    cases hlk : mapLookup map s0.code with
    | some entry =>
      obtain ⟨price, ts, openp⟩ := entry
      simp only [mapLookup_mapInsert, if_neg (Ne.symm hc.1)]
    | none =>
      simp only [mapLookup_mapInsert, if_neg (Ne.symm hc.1)]

/-- C8: a symbol's trend after a successful fetch is "▲" when the close price
exceeds the open, "▼" when it is below, "—" otherwise (with the claim's three
concrete cases), and a symbol absent from the response map gets trend "—"
rather than being removed. -/
theorem claim_C8 :
    (trend_of 105 100 = "▲".toList ∧ trend_of 95 100 = "▼".toList ∧
      trend_of 100 100 = "—".toList) ∧
    ∀ (map : List (Str × (ℚ × Nat × ℚ))) (symbols : List SymbolItem)
      (st : SuccessUpdate) (c : Str),
      c ∈ symbols.map (fun s => s.code) →
      mapLookup (apply_success_update map symbols st).trends c =
        some (match mapLookup map c with
              | some (price, _, openp) => trend_of price openp
              | none => "—".toList) := by
  refine ⟨by decide, fun map symbols st c hc => ?_⟩
  induction symbols generalizing st with
  | nil => simp at hc
  | cons s0 rest ih =>
    by_cases hrest : c ∈ rest.map (fun s => s.code)
    · rw [apply_success_update, List.foldl_cons, ← apply_success_update]
      exact ih _ hrest
    · have hc0 : s0.code = c := by
        simp only [List.map_cons, List.mem_cons] at hc
        rcases hc with h | h
        · exact h.symm
        · exact absurd h hrest
      rw [apply_success_update, List.foldl_cons, ← apply_success_update]
      rw [apply_success_update_not_mem _ _ _ _ hrest, success_step, hc0]
      cases hlk : mapLookup map c with
      | some entry =>
        obtain ⟨price, ts, openp⟩ := entry
        simp [mapLookup_mapInsert, hlk]
      | none =>
        simp [mapLookup_mapInsert, hlk]

/-! ### Failover lemmas (claims C2, C3, C10) -/

lemma getLast?_cons_ne_nil {β : Type} (a : β) (l : List β) (h : l ≠ []) :
    (a :: l).getLast? = l.getLast? := by
  cases l with
  | nil => exact absurd rfl h
  | cons b bs => rfl

lemma failoverAux_length {α : Type} (fetchAt : Nat → Except FetchError α)
    (n : Nat) (r cursor : Nat) (le : Option FetchError) :
    (failoverAux fetchAt n r cursor le).1.length ≤ r := by
  induction r generalizing cursor le with
  | zero => simp [failoverAux]
  | succ r ih =>
    cases h : fetchAt cursor with
    | ok payload => simp [failoverAux, h]
    | error err =>
      simpa [failoverAux, h] using Nat.succ_le_succ (ih _ _)

lemma failoverAux_roundRobin {α : Type} (fetchAt : Nat → Except FetchError α)
    (n : Nat) (r cursor : Nat) (le : Option FetchError) (hc : cursor < n) :
    (failoverAux fetchAt n r cursor le).1 =
      (List.range (failoverAux fetchAt n r cursor le).1.length).map
        (fun i => (cursor + i) % n) := by
  induction r generalizing cursor le with
  | zero => simp [failoverAux]
  | succ r ih =>
    have hn : 0 < n := Nat.lt_of_le_of_lt (Nat.zero_le _) hc
    cases h : fetchAt cursor with
    | ok payload =>
      have hr1 : List.range 1 = [0] := rfl
      simp [failoverAux, h, hr1, Nat.mod_eq_of_lt hc]
    | error err =>
      have hc' : (cursor + 1) % n < n := Nat.mod_lt _ hn
      have ihh := ih ((cursor + 1) % n) (some err) hc'
      simp only [failoverAux, h, List.length_cons]
      rw [List.range_succ_eq_map, List.map_cons, List.map_map]
      refine List.cons_eq_cons.mpr ⟨?_, ?_⟩
      · rw [Nat.add_zero, Nat.mod_eq_of_lt hc]
      · calc (failoverAux fetchAt n r ((cursor + 1) % n) (some err)).1
            = List.map (fun i => ((cursor + 1) % n + i) % n)
                (List.range
                  (failoverAux fetchAt n r ((cursor + 1) % n)
                    (some err)).1.length) := ihh
          _ = List.map ((fun i => (cursor + i) % n) ∘ Nat.succ)
                (List.range
                  (failoverAux fetchAt n r ((cursor + 1) % n)
                    (some err)).1.length) := by
              refine List.map_congr_left (fun i _ => ?_)
              simp only [Function.comp_apply]
              rw [Nat.mod_add_mod]
              congr 1
              omega

lemma failoverAux_success {α : Type} (fetchAt : Nat → Except FetchError α)
    (n : Nat) (r cursor : Nat) (le : Option FetchError) (m : α) (idx : Nat)
    (h : (failoverAux fetchAt n r cursor le).2.1 = some (m, idx)) :
    fetchAt idx = Except.ok m ∧
    (failoverAux fetchAt n r cursor le).1.getLast? = some idx ∧
    ∀ j ∈ (failoverAux fetchAt n r cursor le).1.dropLast,
      ∃ e, fetchAt j = Except.error e := by
  induction r generalizing cursor le with
  | zero => simp [failoverAux] at h
  | succ r ih =>
    cases hf : fetchAt cursor with
    | ok payload =>
      rw [failoverAux] at h
      simp only [hf] at h
      obtain ⟨hm, hidx⟩ : payload = m ∧ cursor = idx := by
        simpa using h
      subst hm; subst hidx
      refine ⟨hf, ?_, ?_⟩
      · simp [failoverAux, hf]
      · simp [failoverAux, hf]
    | error err =>
      rw [failoverAux] at h
      simp only [hf] at h
      obtain ⟨h1, h2, h3⟩ := ih _ _ h
      have hne : (failoverAux fetchAt n r ((cursor + 1) % n) (some err)).1 ≠
          [] := by
        intro hnil
        rw [hnil] at h2
        simp at h2
      refine ⟨h1, ?_, ?_⟩
      · simp only [failoverAux, hf]
        rw [getLast?_cons_ne_nil _ _ hne]
        exact h2
      · simp only [failoverAux, hf]
        cases hats : (failoverAux fetchAt n r ((cursor + 1) % n)
            (some err)).1 with
        | nil => exact absurd hats hne
        | cons b bs =>
          simp only [List.dropLast_cons₂]
          intro j hj
          rcases List.mem_cons.mp hj with hj | hj
          · exact ⟨err, by rw [hj]; exact hf⟩
          · exact h3 j (by rw [hats]; exact hj)

lemma failoverAux_none {α : Type} (fetchAt : Nat → Except FetchError α)
    (n : Nat) (hall : ∀ i, i < n → ∃ e, fetchAt i = Except.error e)
    (r cursor : Nat) (le : Option FetchError) (hc : cursor < n) :
    (failoverAux fetchAt n r cursor le).2.1 = none := by
  induction r generalizing cursor le with
  | zero => simp [failoverAux]
  | succ r ih =>
    have hn : 0 < n := Nat.lt_of_le_of_lt (Nat.zero_le _) hc
    obtain ⟨e, he⟩ := hall cursor hc
    simp only [failoverAux, he]
    exact ih _ _ (Nat.mod_lt _ hn)

lemma failoverAux_allfail {α : Type} (fetchAt : Nat → Except FetchError α)
    (n : Nat) (errF : Nat → FetchError)
    (hall : ∀ i, i < n → fetchAt i = Except.error (errF i)) :
    ∀ (r cursor : Nat) (le : Option FetchError), cursor < n →
      (failoverAux fetchAt n r cursor le).1.length = r ∧
      (failoverAux fetchAt n r cursor le).2.2 =
        (if r = 0 then le else some (errF ((cursor + (r - 1)) % n))) := by
  intro r
  induction r with
  | zero =>
    intro cursor le hc
    simp [failoverAux]
  | succ r ih =>
    intro cursor le hc
    have hn : 0 < n := Nat.lt_of_le_of_lt (Nat.zero_le _) hc
    have hf := hall cursor hc
    have hc' : (cursor + 1) % n < n := Nat.mod_lt _ hn
    obtain ⟨i1, i2⟩ := ih ((cursor + 1) % n) (some (errF cursor)) hc'
    constructor
    · simp only [failoverAux, hf, List.length_cons, i1]
    · simp only [failoverAux, hf, i2]
      by_cases hr : r = 0
      · subst hr
        simp [Nat.mod_eq_of_lt hc]
      · rw [if_neg hr, if_neg (Nat.succ_ne_zero r)]
        congr 1
        rw [Nat.mod_add_mod]
        congr 2
        omega

/-- C2: the failover loop attempts credentials in round-robin order from
`start_index`, wrapping modulo the credential count, makes at most as many
attempts as there are credentials, and on success the succeeding credential
is the last one attempted, every earlier attempt failed, and the succeeding
index is recorded as the new `token_index`. -/
theorem claim_C2 {α : Type} (tokens : List Str)
    (fetch : Str → Except FetchError α) (start : Nat) (h1 : tokens ≠ [])
    (h2 : start < tokens.length) :
    (run_failover tokens fetch start).attempts.length ≤ tokens.length ∧
    (run_failover tokens fetch start).attempts =
      (List.range (run_failover tokens fetch start).attempts.length).map
        (fun i => (start + i) % tokens.length) ∧
    ∀ m, (run_failover tokens fetch start).map = some m →
      fetch (tokenAt tokens (run_failover tokens fetch start).token_index) =
        Except.ok m ∧
      (run_failover tokens fetch start).attempts.getLast? =
        some (run_failover tokens fetch start).token_index ∧
      ∀ j ∈ (run_failover tokens fetch start).attempts.dropLast,
        ∃ e, fetch (tokenAt tokens j) = Except.error e := by
  have hstart : ¬ (tokens.length ≤ start) := Nat.not_le.mpr h2
  cases hres : (failoverAux (fun i => fetch (tokenAt tokens i)) tokens.length
      tokens.length start none).2.1 with
  | some p =>
    obtain ⟨m0, idx0⟩ := p
    have hout : run_failover tokens fetch start =
        { map := some m0, token_index := idx0
          attempts := (failoverAux (fun i => fetch (tokenAt tokens i))
            tokens.length tokens.length start none).1
          last_error := none } := by
      simp only [run_failover, if_neg hstart, hres]
    obtain ⟨s1, s2, s3⟩ := failoverAux_success
      (fun i => fetch (tokenAt tokens i)) tokens.length tokens.length start
      none m0 idx0 hres
    rw [hout]
    refine ⟨failoverAux_length _ _ _ _ _,
      failoverAux_roundRobin _ _ _ _ _ h2, ?_⟩
    intro m hm
    have hm0 : m0 = m := by simpa using hm
    subst hm0
    exact ⟨s1, s2, s3⟩
  | none =>
    have hout : run_failover tokens fetch start =
        { map := none, token_index := 0
          attempts := (failoverAux (fun i => fetch (tokenAt tokens i))
            tokens.length tokens.length start none).1
          last_error := (failoverAux (fun i => fetch (tokenAt tokens i))
            tokens.length tokens.length start none).2.2 } := by
      simp only [run_failover, if_neg hstart, hres]
    rw [hout]
    refine ⟨failoverAux_length _ _ _ _ _,
      failoverAux_roundRobin _ _ _ _ _ h2, ?_⟩
    intro m hm
    simp at hm

/-- C2 witness: credentials `[A, B, C]`, start index 1, only `C` succeeds —
the loop attempts exactly the cursors 1 then 2 (credential `B` then `C`),
returns the payload and pins `token_index` to 2. -/
theorem claim_C2_witness :
    (run_failover abcTokens onlyCFetch 1).attempts = [1, 2] ∧
    (run_failover abcTokens onlyCFetch 1).token_index = 2 ∧
    (run_failover abcTokens onlyCFetch 1).map = some 7 ∧
    (run_failover abcTokens onlyCFetch 1).attempts.length ≤
      abcTokens.length ∧
    onlyCFetch (tokenAt abcTokens
      (run_failover abcTokens onlyCFetch 1).token_index) = Except.ok 7 := by
  refine ⟨by decide, by decide, by decide, ?_, ?_⟩
  · exact (claim_C2 abcTokens onlyCFetch 1 (by decide) (by decide)).1
  · exact ((claim_C2 abcTokens onlyCFetch 1 (by decide)
      (by decide)).2.2 7 (by decide)).1

/-- C3: when every credential's attempt fails, the surfaced error is exactly
the `FetchError` of the last attempt in round-robin order — the one at index
`(start + n - 1) mod n` — earlier errors being discarded, and no map is
produced. -/
theorem claim_C3 {α : Type} (tokens : List Str)
    (fetch : Str → Except FetchError α) (errF : Nat → FetchError)
    (start : Nat) (h1 : tokens ≠ []) (h2 : start < tokens.length)
    (hall : ∀ i, i < tokens.length →
      fetch (tokenAt tokens i) = Except.error (errF i)) :
    (run_failover tokens fetch start).map = none ∧
    (run_failover tokens fetch start).attempts.length = tokens.length ∧
    (run_failover tokens fetch start).last_error =
      some (errF ((start + (tokens.length - 1)) % tokens.length)) := by
  have hstart : ¬ (tokens.length ≤ start) := Nat.not_le.mpr h2
  have hn : tokens.length ≠ 0 := by
    intro h
    exact h1 (List.length_eq_zero.mp h)
  have hnone := failoverAux_none (fun i => fetch (tokenAt tokens i))
    tokens.length (fun i hi => ⟨errF i, hall i hi⟩) tokens.length start none
    h2
  obtain ⟨hlen, hlast⟩ := failoverAux_allfail
    (fun i => fetch (tokenAt tokens i)) tokens.length errF hall
    tokens.length start none h2
  have hout : run_failover tokens fetch start =
      { map := none, token_index := 0
        attempts := (failoverAux (fun i => fetch (tokenAt tokens i))
          tokens.length tokens.length start none).1
        last_error := (failoverAux (fun i => fetch (tokenAt tokens i))
          tokens.length tokens.length start none).2.2 } := by
    simp only [run_failover, if_neg hstart, hnone]
  rw [hout]
  refine ⟨rfl, hlen, ?_⟩
  rw [hlast, if_neg hn]

/-- C3 witness: credentials `[A, B]`, both failing — the surfaced error is
the one produced by the attempt on `B`, and no price map is produced. -/
theorem claim_C3_witness :
    (run_failover abTokens allFailFetch 0).last_error =
      some (FetchError.new "B".toList) ∧
    (run_failover abTokens allFailFetch 0).map = none := by
  have h := claim_C3 abTokens allFailFetch abErr 0 (by decide) (by decide)
    (fun i _ => rfl)
  refine ⟨?_, h.1⟩
  rw [h.2.2]
  decide

/-- C10: whenever a refresh cycle exhausts every credential without success,
the resulting `token_index` is reset to 0, so the next cycle's failover
starts again from the first credential. -/
theorem claim_C10 {α : Type} (tokens : List Str)
    (fetch : Str → Except FetchError α) (start : Nat) (h1 : tokens ≠ [])
    (hall : ∀ i, i < tokens.length →
      ∃ e, fetch (tokenAt tokens i) = Except.error e) :
    (run_failover tokens fetch start).token_index = 0 := by
  have hn : 0 < tokens.length := List.length_pos.mpr h1
  have hstart' :
      (if tokens.length ≤ start then 0 else start) < tokens.length := by
    by_cases h : tokens.length ≤ start
    · rw [if_pos h]; exact hn
    · rw [if_neg h]; exact Nat.not_le.mp h
  have hnone := failoverAux_none (fun i => fetch (tokenAt tokens i))
    tokens.length hall tokens.length
    (if tokens.length ≤ start then 0 else start) none hstart'
  simp [run_failover, hnone]

/-- C10 witness: credentials `[A, B]` both failing, starting from
`token_index = 1`: the new `token_index` is 0. -/
theorem claim_C10_witness :
    (run_failover abTokens allFailFetch 1).token_index = 0 :=
  claim_C10 abTokens allFailFetch 1 (by decide)
    (fun i _ => ⟨FetchError.new (tokenAt abTokens i), rfl⟩)

/-! ### Claim C7 — silent per-item parse degradation -/

lemma price_map_step_lookup (parseF : Str → Option ℚ)
    (parseU : Str → Option Nat) (map : List (Str × (ℚ × Nat × ℚ)))
    (item : BatchItem) (c : Str)
    (h : item.code = c → item_parses parseF parseU item = false) :
    mapLookup (price_map_step parseF parseU map item) c = mapLookup map c := by
  cases hk : item.kline_data.head? with
  | none => simp [price_map_step, hk]
  | some kline =>
    cases hcp : parseF kline.close_price with
    | none => simp [price_map_step, hk, hcp]
    | some price =>
      cases hts : parseU kline.timestamp with
      | none => simp [price_map_step, hk, hcp, hts]
      | some ts =>
        cases hop : parseF kline.open_price with
        | none => simp [price_map_step, hk, hcp, hts, hop]
        | some openp =>
          by_cases hc : item.code = c
          · have := h hc
            simp [item_parses, hk, hcp, hts, hop] at this
          · simp [price_map_step, hk, hcp, hts, hop, mapLookup_mapInsert,
              hc]

lemma build_price_map_fold_none (parseF : Str → Option ℚ)
    (parseU : Str → Option Nat) (items : List BatchItem) :
    ∀ (acc : List (Str × (ℚ × Nat × ℚ))) (c : Str),
      mapLookup acc c = none →
      (∀ item ∈ items, item.code = c →
        item_parses parseF parseU item = false) →
      mapLookup (items.foldl (price_map_step parseF parseU) acc) c = none := by
  induction items with
  | nil =>
    intro acc c hacc _
    simpa using hacc
  | cons it rest ih =>
    intro acc c hacc hitems
    rw [List.foldl_cons]
    apply ih
    · rw [price_map_step_lookup parseF parseU acc it c
        (hitems it (List.mem_cons_self _ _))]
      exact hacc
    · intro item hm hc
      exact hitems item (List.mem_cons_of_mem _ hm) hc

/-- C7: when the envelope's `ret` is 200 the fetch succeeds, and any code
all of whose response items fail numeric parsing (or carry no kline at all)
is simply absent from the returned price map — it never fails the fetch. -/
theorem claim_C7 (parseF : Str → Option ℚ) (parseU : Str → Option Nat)
    (payload : BatchResp) (h : payload.ret = 200) :
    fetch_batch_quotes parseF parseU payload =
      Except.ok (build_price_map parseF parseU payload.kline_list) ∧
    ∀ c, (∀ item ∈ payload.kline_list, item.code = c →
        item_parses parseF parseU item = false) →
      mapLookup (build_price_map parseF parseU payload.kline_list) c =
        none := by
  refine ⟨by simp [fetch_batch_quotes, h], fun c hc => ?_⟩
  rw [build_price_map]
  exact build_price_map_fold_none parseF parseU payload.kline_list [] c rfl
    hc

/-- C7 witness: a `ret = 200` payload whose `BAD` item has an unparsable
timestamp and whose `EMPTY` item has no kline: the fetch returns `Ok`, the
two degenerate codes are absent from the map, and the parseable `GOOD` item
is mapped. -/
theorem claim_C7_witness :
    fetch_batch_quotes wParseF wParseU wPayload =
      Except.ok (build_price_map wParseF wParseU wPayload.kline_list) ∧
    mapLookup (build_price_map wParseF wParseU wPayload.kline_list)
      "BAD".toList = none ∧
    mapLookup (build_price_map wParseF wParseU wPayload.kline_list)
      "EMPTY".toList = none ∧
    mapLookup (build_price_map wParseF wParseU wPayload.kline_list)
      "GOOD".toList = some (105, 1, 100) := by
  have h := claim_C7 wParseF wParseU wPayload (by decide)
  exact ⟨h.1, h.2 "BAD".toList (by decide), h.2 "EMPTY".toList (by decide),
    by decide⟩

/-! ### Claim C9 — symbol dedup / label defaulting -/

lemma normSymbolsAux_eq_spec (l : List SymbolItem) :
    ∀ seen : List Str,
      normSymbolsAux seen l =
        specNormalize (l.filter (fun s => decide (trim s.code ∉ seen))) := by
  induction l with
  | nil => intro seen; simp [normSymbolsAux, specNormalize]
  | cons sym rest ih =>
    intro seen
    by_cases hseen : trim sym.code ∈ seen
    · rw [normSymbolsAux, if_pos (Or.inr hseen)]
      rw [List.filter_cons_of_neg (by simpa using hseen)]
      exact ih seen
    · rw [List.filter_cons_of_pos (by simpa using hseen)]
      by_cases hnil : trim sym.code = []
      · rw [normSymbolsAux, if_pos (Or.inl hnil)]
        rw [specNormalize, if_pos hnil]
        exact ih seen
      · rw [normSymbolsAux, if_neg (by
          intro h
          rcases h with h | h
          · exact hnil h
          · exact hseen h)]
        rw [specNormalize, if_neg hnil]
        refine List.cons_eq_cons.mpr ⟨rfl, ?_⟩
        rw [List.filter_filter]
        rw [ih (trim sym.code :: seen)]
        congr 1
        refine List.filter_congr (fun a _ => ?_)
        simp only [List.mem_cons, not_or, Bool.decide_and, ne_eq]

lemma normSymbolsAux_codes_nodup (l : List SymbolItem) :
    ∀ seen : List Str,
      ((normSymbolsAux seen l).map SymbolItem.code).Nodup ∧
      ∀ c ∈ (normSymbolsAux seen l).map SymbolItem.code, c ∉ seen := by
  induction l with
  | nil => intro seen; simp [normSymbolsAux]
  | cons sym rest ih =>
    intro seen
    by_cases hcond : trim sym.code = [] ∨ trim sym.code ∈ seen
    · rw [normSymbolsAux, if_pos hcond]
      exact ih seen
    · rw [normSymbolsAux, if_neg hcond]
      obtain ⟨ihn, ihs⟩ := ih (trim sym.code :: seen)
      simp only [List.map_cons, List.nodup_cons]
      refine ⟨⟨?_, ihn⟩, ?_⟩
      · intro hmem
        exact (ihs _ hmem) (List.mem_cons_self _ _)
      · intro c hc
        rcases List.mem_cons.mp hc with hc | hc
        · intro hs
          exact hcond (Or.inr (hc ▸ hs))
        · intro hs
          exact (ihs c hc) (List.mem_cons_of_mem _ hs)

lemma normSymbolsAux_mem_codes (l : List SymbolItem) :
    ∀ (seen : List Str) (c : Str),
      c ∈ (normSymbolsAux seen l).map SymbolItem.code ↔
        (c ∉ seen ∧ c ≠ [] ∧ c ∈ l.map (fun s => trim s.code)) := by
  induction l with
  | nil => intro seen c; simp [normSymbolsAux]
  | cons sym rest ih =>
    intro seen c
    by_cases hcond : trim sym.code = [] ∨ trim sym.code ∈ seen
    · rw [normSymbolsAux, if_pos hcond]
      rw [ih seen c]
      simp only [List.map_cons, List.mem_cons]
      constructor
      · rintro ⟨h1, h2, h3⟩
        exact ⟨h1, h2, Or.inr h3⟩
      · rintro ⟨h1, h2, h3 | h3⟩
        · exfalso
          rcases hcond with h | h
          · exact h2 (h3 ▸ h)
          · exact h1 (h3 ▸ h)
        · exact ⟨h1, h2, h3⟩
    · rw [normSymbolsAux, if_neg hcond]
      simp only [not_or] at hcond
      simp only [List.map_cons, List.mem_cons]
      rw [ih (trim sym.code :: seen) c]
      simp only [List.mem_cons, not_or]
      constructor
      · rintro (rfl | ⟨⟨hne, hns⟩, h2, h3⟩)
        · exact ⟨hcond.2, hcond.1, Or.inl rfl⟩
        · exact ⟨hns, h2, Or.inr h3⟩
      · rintro ⟨hns, h2, rfl | h3⟩
        · exact Or.inl rfl
        · by_cases hceq : c = trim sym.code
          · exact Or.inl hceq
          · exact Or.inr ⟨⟨hceq, hns⟩, h2, h3⟩

lemma countP_eq_one_of_nodup_mem {β : Type} [DecidableEq β] (l : List β)
    (c : β) (hn : l.Nodup) (hm : c ∈ l) :
    l.countP (fun x => decide (x = c)) = 1 := by
  induction l with
  | nil => simp at hm
  | cons a rest ih =>
    rw [List.nodup_cons] at hn
    rcases List.mem_cons.mp hm with rfl | hm'
    · rw [List.countP_cons_of_pos _ _ (by simp)]
      have hz : rest.countP (fun x => decide (x = c)) = 0 := by
        rw [List.countP_eq_zero]
        intro x hx
        simp only [decide_eq_true_eq]
        intro hxa
        exact hn.1 (hxa ▸ hx)
      rw [hz]
    · rw [List.countP_cons_of_neg _ _ (by
        simp only [decide_eq_true_eq]
        intro hac
        exact hn.1 (hac ▸ hm'))]
      exact ih hn.2 hm'

/-- C9: for a non-empty symbol list with possible duplicates, the cleaned
list coincides with the spec-worded normalization (first occurrence of each
trimmed non-empty code wins, blank labels become the code), its codes are
duplicate-free, a code appears exactly when it is a non-empty trimmed input
code, and then exactly once. -/
theorem claim_C9 (l : List SymbolItem) (hl : l ≠ []) :
    normSymbolsAux [] l = specNormalize l ∧
    ((normSymbolsAux [] l).map SymbolItem.code).Nodup ∧
    (∀ c, c ∈ (normSymbolsAux [] l).map SymbolItem.code ↔
      (c ≠ [] ∧ c ∈ l.map (fun s => trim s.code))) ∧
    (∀ c, c ≠ [] → c ∈ l.map (fun s => trim s.code) →
      ((normSymbolsAux [] l).map SymbolItem.code).countP
        (fun x => decide (x = c)) = 1) := by
  refine ⟨?_, (normSymbolsAux_codes_nodup l []).1, fun c => ?_,
    fun c h1 h2 => ?_⟩
  · rw [normSymbolsAux_eq_spec l []]
    congr 1
    refine List.filter_eq_self.mpr (fun a _ => by simp)
  · rw [normSymbolsAux_mem_codes l [] c]
    simp
  · refine countP_eq_one_of_nodup_mem _ c
      (normSymbolsAux_codes_nodup l []).1 ?_
    rw [normSymbolsAux_mem_codes l [] c]
    simp [h1, h2]

/-- C9 witness: duplicates, blanks and padding in the input collapse to the
expected two-symbol list, and the surviving code `A` appears exactly once. -/
theorem claim_C9_witness :
    normSymbolsAux [] c9Symbols = specNormalize c9Symbols ∧
    normSymbolsAux [] c9Symbols =
      [ { code := "A".toList, label := "A".toList },
        { code := "B".toList, label := "b".toList } ] ∧
    ((normSymbolsAux [] c9Symbols).map SymbolItem.code).countP
      (fun x => decide (x = "A".toList)) = 1 := by
  refine ⟨(claim_C9 c9Symbols (by decide)).1, by decide, ?_⟩
  exact (claim_C9 c9Symbols (by decide)).2.2.2 "A".toList (by decide)
    (by decide)

/-! ### String lemmas for claims C5 and C1 -/

lemma dropWhile_dropWhile (p : Char → Bool) (l : Str) :
    (l.dropWhile p).dropWhile p = l.dropWhile p := by
  induction l with
  | nil => rfl
  | cons a l ih =>
    by_cases h : p a = true
    · simp [List.dropWhile_cons, h, ih]
    · simp [List.dropWhile_cons, h]

lemma head?_dropWhile (p : Char → Bool) (l : Str) (a : Char)
    (h : (l.dropWhile p).head? = some a) : p a = false := by
  induction l with
  | nil => simp at h
  | cons b l ih =>
    by_cases hb : p b = true
    · rw [List.dropWhile_cons, if_pos hb] at h
      exact ih h
    · rw [List.dropWhile_cons, if_neg hb] at h
      simp only [List.head?_cons, Option.some.injEq] at h
      rw [← h]
      exact Bool.eq_false_iff.mpr hb

lemma dropWhile_eq_self (p : Char → Bool) (l : Str)
    (h : ∀ a, l.head? = some a → p a = false) : l.dropWhile p = l := by
  cases l with
  | nil => rfl
  | cons a l =>
    rw [List.dropWhile_cons, if_neg]
    rw [h a rfl]
    simp

lemma dropWhile_ne_nil_imp (p : Char → Bool) (l : Str)
    (h : l.dropWhile p ≠ []) : l ≠ [] := by
  intro hl
  rw [hl] at h
  exact h rfl

lemma getLast?_dropWhile (p : Char → Bool) (l : Str)
    (h : l.dropWhile p ≠ []) :
    (l.dropWhile p).getLast? = l.getLast? := by
  induction l with
  | nil => simp at h
  | cons a l ih =>
    by_cases ha : p a = true
    · rw [List.dropWhile_cons, if_pos ha] at h ⊢
      rw [ih h, getLast?_cons_ne_nil a l (dropWhile_ne_nil_imp p l h)]
    · rw [List.dropWhile_cons, if_neg ha]

lemma mem_dropWhile (p : Char → Bool) (l : Str) (c : Char)
    (h : c ∈ l.dropWhile p) : c ∈ l := by
  induction l with
  | nil => simpa using h
  | cons a l ih =>
    by_cases ha : p a = true
    · rw [List.dropWhile_cons, if_pos ha] at h
      exact List.mem_cons_of_mem _ (ih h)
    · rw [List.dropWhile_cons, if_neg ha] at h
      exact h

lemma mem_trim (s : Str) (c : Char) (h : c ∈ trim s) : c ∈ s := by
  rw [trim] at h
  rw [List.mem_reverse] at h
  have h2 := mem_dropWhile _ _ _ h
  rw [List.mem_reverse] at h2
  exact mem_dropWhile _ _ _ h2

lemma trim_head?_not (s : Str) (c : Char) (h : (trim s).head? = some c) :
    isWS c = false := by
  rw [trim, List.head?_reverse] at h
  have hne : (s.dropWhile isWS).reverse.dropWhile isWS ≠ [] := by
    intro hnil
    rw [hnil] at h
    simp at h
  rw [getLast?_dropWhile _ _ hne, List.getLast?_reverse] at h
  exact head?_dropWhile _ _ _ h

lemma trim_getLast?_not (s : Str) (c : Char)
    (h : (trim s).getLast? = some c) : isWS c = false := by
  rw [trim, List.getLast?_reverse] at h
  exact head?_dropWhile _ _ _ h

lemma trim_trim (s : Str) : trim (trim s) = trim s := by
  have h1 : (trim s).dropWhile isWS = trim s := by
    refine dropWhile_eq_self _ _ (fun a ha => ?_)
    exact trim_head?_not s a ha
  rw [trim, h1]
  rw [trim, List.reverse_reverse]
  rw [dropWhile_dropWhile]

lemma linesAux_append_no_nl (s : Str) (hs : ∀ c ∈ s, c ≠ '\n') :
    ∀ (cur rest : Str),
      linesAux cur (s ++ rest) = linesAux (s.reverse ++ cur) rest := by
  induction s with
  | nil => intro cur rest; simp
  | cons c s' ih =>
    intro cur rest
    have hc : c ≠ '\n' := hs c (List.mem_cons_self _ _)
    rw [List.cons_append, linesAux, if_neg hc]
    rw [ih (fun x hx => hs x (List.mem_cons_of_mem _ hx)) (c :: cur) rest]
    rw [List.reverse_cons, List.append_assoc]
    rfl

lemma stripCRrev_reverse (t : Str) (h : t.getLast? ≠ some '\r') :
    stripCRrev t.reverse = t := by
  cases htr : t.reverse with
  | nil =>
    have : t = [] := by
      rw [← List.reverse_reverse t, htr]
      rfl
    rw [this]
    rfl
  | cons a as =>
    have ha : a ≠ '\r' := by
      intro hr
      apply h
      rw [← List.head?_reverse, htr, List.head?_cons, hr]
    rw [stripCRrev, if_neg ha, ← htr, List.reverse_reverse]

lemma rustLines_joinNl (toks : List Str)
    (h : ∀ t ∈ toks,
      t ≠ [] ∧ (∀ c ∈ t, c ≠ '\n') ∧ t.getLast? ≠ some '\r') :
    rustLines (joinNl toks) = toks := by
  induction toks with
  | nil => rfl
  | cons t rest ih =>
    obtain ⟨ht1, ht2, ht3⟩ := h t (List.mem_cons_self _ _)
    cases rest with
    | nil =>
      rw [joinNl, rustLines]
      have happ := linesAux_append_no_nl t ht2 [] []
      rw [List.append_nil, List.append_nil] at happ
      rw [happ, linesAux, if_neg (by
        intro hnil
        exact ht1 (by
          rw [← List.reverse_reverse t, hnil]
          rfl))]
      rw [List.reverse_reverse]
    | cons t2 rest2 =>
      have hjoin : joinNl (t :: t2 :: rest2) =
          t ++ '\n' :: joinNl (t2 :: rest2) := rfl
      rw [hjoin, rustLines]
      have happ := linesAux_append_no_nl t ht2 []
        ('\n' :: joinNl (t2 :: rest2))
      rw [List.append_nil] at happ
      rw [happ, linesAux, if_pos rfl]
      rw [stripCRrev_reverse t ht3]
      rw [← rustLines]
      rw [ih (fun x hx => h x (List.mem_cons_of_mem _ hx))]

lemma linesAux_no_nl (s : Str) :
    ∀ (cur : Str), (∀ c ∈ cur, c ≠ '\n') →
      ∀ l ∈ linesAux cur s, ∀ c ∈ l, c ≠ '\n' := by
  induction s with
  | nil =>
    intro cur hcur l hl c hc
    rw [linesAux] at hl
    by_cases hn : cur = []
    · rw [if_pos hn] at hl
      simp at hl
    · rw [if_neg hn] at hl
      rw [List.mem_singleton] at hl
      subst hl
      exact hcur c (List.mem_reverse.mp hc)
  | cons c0 s' ih =>
    intro cur hcur l hl c hc
    by_cases h0 : c0 = '\n'
    · rw [linesAux, if_pos h0] at hl
      rcases List.mem_cons.mp hl with hl | hl
      · subst hl
        cases hcu : cur with
        | nil =>
          rw [hcu] at hc
          simp [stripCRrev] at hc
        | cons a as =>
          rw [hcu] at hc
          rw [stripCRrev] at hc
          by_cases har : a = '\r'
          · rw [if_pos har] at hc
            refine hcur c ?_
            rw [hcu]
            exact List.mem_cons_of_mem _ (List.mem_reverse.mp hc)
          · rw [if_neg har] at hc
            refine hcur c ?_
            rw [hcu]
            exact List.mem_reverse.mp hc
      · exact ih [] (by simp) l hl c hc
    · rw [linesAux, if_neg h0] at hl
      refine ih (c0 :: cur) ?_ l hl c hc
      intro x hx
      rcases List.mem_cons.mp hx with hx | hx
      · rw [hx]; exact h0
      · exact hcur x hx

lemma parse_tokens_spec (t : Str) :
    ∀ tok ∈ parse_tokens t,
      trim tok = tok ∧ tok ≠ [] ∧ (∀ c ∈ tok, c ≠ '\n') ∧
        tok.getLast? ≠ some '\r' := by
  intro tok htok
  rw [parse_tokens] at htok
  have hmem := List.mem_of_mem_filter htok
  have hne : tok ≠ [] := by
    have := List.of_mem_filter htok
    simpa using this
  obtain ⟨line, hline, hlt⟩ := List.mem_map.mp hmem
  refine ⟨by rw [← hlt, trim_trim], hne, ?_, ?_⟩
  · intro c hc
    refine linesAux_no_nl t [] (by simp) line hline c ?_
    rw [← hlt] at hc
    exact mem_trim _ _ hc
  · intro hlast
    have := trim_getLast?_not line '\r' (by rw [hlt]; exact hlast)
    simp [isWS] at this

lemma parse_tokens_joinNl (t : Str) :
    parse_tokens (joinNl (parse_tokens t)) = parse_tokens t := by
  have hspec := parse_tokens_spec t
  rw [parse_tokens, rustLines_joinNl (parse_tokens t)
    (fun tok htok => ⟨(hspec tok htok).2.1, (hspec tok htok).2.2.1,
      (hspec tok htok).2.2.2⟩)]
  rw [List.map_congr_left (fun tok htok => (hspec tok htok).1)]
  rw [List.map_id']
  refine List.filter_eq_self.mpr (fun tok htok => ?_)
  simp [(hspec tok htok).2.1]

/-! ### Symbol-list idempotence lemmas (claim C5) -/

lemma normSymbolsAux_items_normal (l : List SymbolItem) :
    ∀ (seen : List Str) (sym : SymbolItem), sym ∈ normSymbolsAux seen l →
      trim sym.code = sym.code ∧ sym.code ≠ [] ∧
      trim sym.label = sym.label ∧ sym.label ≠ [] := by
  induction l with
  | nil =>
    intro seen sym h
    simp [normSymbolsAux] at h
  | cons s0 rest ih =>
    intro seen sym h
    by_cases hcond : trim s0.code = [] ∨ trim s0.code ∈ seen
    · rw [normSymbolsAux, if_pos hcond] at h
      exact ih seen sym h
    · rw [normSymbolsAux, if_neg hcond] at h
      simp only [not_or] at hcond
      rcases List.mem_cons.mp h with rfl | h
      · refine ⟨trim_trim _, hcond.1, ?_, ?_⟩
        · show trim (if trim s0.label = [] then trim s0.code
              else trim s0.label) =
            (if trim s0.label = [] then trim s0.code else trim s0.label)
          by_cases hl : trim s0.label = []
          · rw [if_pos hl]
            exact trim_trim _
          · rw [if_neg hl]
            exact trim_trim _
        · show (if trim s0.label = [] then trim s0.code
              else trim s0.label) ≠ []
          by_cases hl : trim s0.label = []
          · rw [if_pos hl]
            exact hcond.1
          · rw [if_neg hl]
            exact hl
      · exact ih _ sym h

lemma normSymbolsAux_id (l : List SymbolItem) :
    ∀ seen : List Str,
      (∀ sym ∈ l, trim sym.code = sym.code ∧ sym.code ≠ [] ∧
        trim sym.label = sym.label ∧ sym.label ≠ []) →
      (l.map SymbolItem.code).Nodup →
      (∀ sym ∈ l, sym.code ∉ seen) →
      normSymbolsAux seen l = l := by
  induction l with
  | nil =>
    intro seen _ _ _
    rfl
  | cons s0 rest ih =>
    intro seen hnorm hnodup hseen
    obtain ⟨hc, hcn, hl, hln⟩ := hnorm s0 (List.mem_cons_self _ _)
    have hs0 : s0.code ∉ seen := hseen s0 (List.mem_cons_self _ _)
    have hhead : s0.code ∉ rest.map SymbolItem.code :=
      (List.nodup_cons.mp (by simpa using hnodup)).1
    rw [normSymbolsAux, if_neg (by
      rw [hc]
      intro hor
      rcases hor with h | h
      · exact hcn h
      · exact hs0 h)]
    refine List.cons_eq_cons.mpr ⟨?_, ?_⟩
    · rw [hc, hl, if_neg hln]
    · refine ih _ (fun sym hm => hnorm sym (List.mem_cons_of_mem _ hm))
        (List.nodup_cons.mp (by simpa using hnodup)).2 ?_
      intro sym hm hmem
      rw [hc] at hmem
      rcases List.mem_cons.mp hmem with he | he
      · exact hhead (he ▸ List.mem_map_of_mem SymbolItem.code hm)
      · exact hseen sym (List.mem_cons_of_mem _ hm) he

lemma default_symbols_id :
    normSymbolsAux [] default_symbols = default_symbols := by
  decide

lemma default_stock_symbols_id :
    normSymbolsAux [] default_stock_symbols = default_stock_symbols := by
  decide

lemma default_symbols_normal :
    ∀ sym ∈ default_symbols,
      trim sym.code = sym.code ∧ sym.code ≠ [] ∧
      trim sym.label = sym.label ∧ sym.label ≠ [] := by
  decide

lemma default_stock_symbols_normal :
    ∀ sym ∈ default_stock_symbols,
      trim sym.code = sym.code ∧ sym.code ≠ [] ∧
      trim sym.label = sym.label ∧ sym.label ≠ [] := by
  decide

/-! ### Projection equations of `normalize_settings` -/

lemma ns_token (s : QuoteSettings) :
    (normalize_settings s).token = joinNl (parse_tokens s.token) :=
  rfl

lemma ns_symbols (s : QuoteSettings) :
    (normalize_settings s).symbols =
      (if normSymbolsAux [] s.symbols = [] then
        (match s.api_type with
          | ApiType.Commodity => default_symbols
          | ApiType.Stock => default_stock_symbols)
      else normSymbolsAux [] s.symbols) :=
  rfl

lemma ns_display (s : QuoteSettings) :
    (normalize_settings s).display_mode = s.display_mode :=
  rfl

lemma ns_rotate (s : QuoteSettings) :
    (normalize_settings s).rotate_seconds =
      clampNat s.rotate_seconds ROTATE_MIN_SECONDS 3600 :=
  rfl

lemma ns_fixed (s : QuoteSettings) :
    (normalize_settings s).fixed_symbol =
      (if s.display_mode = DisplayMode.Fixed then
        (if (normalize_settings s).symbols.any
            (fun sym => decide (sym.code = trim ((s.fixed_symbol).getD [])))
          then some (trim ((s.fixed_symbol).getD []))
          else some (firstCode (normalize_settings s).symbols))
      else s.fixed_symbol) :=
  rfl

lemma ns_symbols_norm (s : QuoteSettings) :
    ∀ sym ∈ (normalize_settings s).symbols,
      trim sym.code = sym.code ∧ sym.code ≠ [] ∧
      trim sym.label = sym.label ∧ sym.label ≠ [] := by
  rw [ns_symbols]
  by_cases h0 : normSymbolsAux [] s.symbols = []
  · rw [if_pos h0]
    cases s.api_type with
    | Commodity => exact default_symbols_normal
    | Stock => exact default_stock_symbols_normal
  · rw [if_neg h0]
    exact fun sym h => normSymbolsAux_items_normal s.symbols [] sym h

lemma ns_symbols_ne_nil (s : QuoteSettings) :
    (normalize_settings s).symbols ≠ [] := by
  rw [ns_symbols]
  by_cases h0 : normSymbolsAux [] s.symbols = []
  · rw [if_pos h0]
    cases s.api_type with
    | Commodity => decide
    | Stock => decide
  · rw [if_neg h0]
    exact h0

lemma ns_symbols_id (s : QuoteSettings) :
    normSymbolsAux [] (normalize_settings s).symbols =
      (normalize_settings s).symbols := by
  rw [ns_symbols]
  by_cases h0 : normSymbolsAux [] s.symbols = []
  · rw [if_pos h0]
    cases s.api_type with
    | Commodity => exact default_symbols_id
    | Stock => exact default_stock_symbols_id
  · rw [if_neg h0]
    exact normSymbolsAux_id _ []
      (fun sym h => normSymbolsAux_items_normal s.symbols [] sym h)
      (normSymbolsAux_codes_nodup s.symbols []).1
      (fun sym _ => List.not_mem_nil _)

lemma clampNat_idem (x lo hi : Nat) (h : lo ≤ hi) :
    clampNat (clampNat x lo hi) lo hi = clampNat x lo hi := by
  unfold clampNat
  split_ifs <;> omega

/-- C5: `normalize_settings` is idempotent — re-normalizing an already
normalized settings value changes nothing, across token re-joining, symbol
trimming/deduplication, the default-list fallback, `refresh_seconds`
forcing, `rotate_seconds` clamping and `fixed_symbol` validation. -/
theorem claim_C5 (s : QuoteSettings) :
    normalize_settings (normalize_settings s) = normalize_settings s := by
  have hsym : (normalize_settings (normalize_settings s)).symbols =
      (normalize_settings s).symbols := by
    rw [ns_symbols (normalize_settings s), ns_symbols_id s,
      if_neg (ns_symbols_ne_nil s)]
  have htok : (normalize_settings (normalize_settings s)).token =
      (normalize_settings s).token := by
    rw [ns_token (normalize_settings s), ns_token s, parse_tokens_joinNl]
  have hrot : (normalize_settings (normalize_settings s)).rotate_seconds =
      (normalize_settings s).rotate_seconds := by
    rw [ns_rotate (normalize_settings s), ns_rotate s]
    exact clampNat_idem _ _ _ (by decide)
  have hfix : (normalize_settings (normalize_settings s)).fixed_symbol =
      (normalize_settings s).fixed_symbol := by
    rw [ns_fixed (normalize_settings s), ns_display s, hsym]
    by_cases hm : s.display_mode = DisplayMode.Fixed
    · rw [if_pos hm]
      have hF : (normalize_settings s).fixed_symbol =
          (if (normalize_settings s).symbols.any
              (fun sym =>
                decide (sym.code = trim ((s.fixed_symbol).getD [])))
            then some (trim ((s.fixed_symbol).getD []))
            else some (firstCode (normalize_settings s).symbols)) := by
        rw [ns_fixed s, if_pos hm]
      by_cases hany : (normalize_settings s).symbols.any
          (fun sym =>
            decide (sym.code = trim ((s.fixed_symbol).getD []))) = true
      · have hF1 : (normalize_settings s).fixed_symbol =
            some (trim ((s.fixed_symbol).getD [])) := by
          rw [hF, if_pos hany]
        rw [hF1]
        simp only [Option.getD_some]
        simp only [trim_trim]
        rw [if_pos hany]
      · have hF2 : (normalize_settings s).fixed_symbol =
            some (firstCode (normalize_settings s).symbols) := by
          rw [hF, if_neg hany]
        rw [hF2]
        simp only [Option.getD_some]
        cases hSc : (normalize_settings s).symbols with
        | nil => exact absurd hSc (ns_symbols_ne_nil s)
        | cons s0 S2 =>
          have hnorm := ns_symbols_norm s s0 (by
            rw [hSc]
            exact List.mem_cons_self _ _)
          show (if (s0 :: S2).any
                (fun sym => decide (sym.code = trim s0.code))
              then some (trim s0.code)
              else some (firstCode (s0 :: S2))) = some s0.code
          rw [hnorm.1]
          exact if_pos (by simp)
    · rw [if_neg hm]
  exact QuoteSettings.ext htok hsym rfl rfl rfl hrot hfix rfl

/-! ### Claim C1 — Fixed-mode display selection -/

/-- C1 counterexample to the claim as stated: a `Fixed`-mode settings value
whose `fixed_symbol` is `Some("B")` while the non-empty symbol list only
contains code `A` makes `pick_display_symbol` return `None` — not the first
symbol of the list. -/
theorem claim_C1_counterexample :
    c1Settings.display_mode = DisplayMode.Fixed ∧
    c1Settings.symbols = [ { code := "A".toList, label := "A".toList } ] ∧
    c1Settings.fixed_symbol = some "B".toList ∧
    "B".toList ≠ "A".toList ∧
    pick_display_symbol c1Settings 0 = none := by
  decide

/-- C1 (amended): on a raw settings value in `Fixed` mode whose
`fixed_symbol` names a code absent from the non-empty symbol list,
`pick_display_symbol` returns `None`; the first-symbol fallback is performed
by `normalize_settings`, which rewrites such a `fixed_symbol` to the first
symbol's code, so that after normalization the selection resolves to the
first symbol of the list. -/
theorem claim_C1 :
    (∀ (s : QuoteSettings) (code : Str) (i : Nat),
      s.display_mode = DisplayMode.Fixed → s.symbols ≠ [] →
      s.fixed_symbol = some code →
      (∀ sym ∈ s.symbols, sym.code ≠ code) →
      pick_display_symbol s i = none) ∧
    (∀ (s : QuoteSettings) (i : Nat),
      s.display_mode = DisplayMode.Fixed →
      (∀ sym ∈ (normalize_settings s).symbols,
        sym.code ≠ trim ((s.fixed_symbol).getD [])) →
      pick_display_symbol (normalize_settings s) i =
        (normalize_settings s).symbols.head?) := by
  constructor
  · intro s code i hm hne hfx habs
    simp only [pick_display_symbol, if_neg hne, hm, hfx]
    refine List.find?_eq_none.mpr (fun sym hmem => ?_)
    simp only [decide_eq_true_eq]
    exact habs sym hmem
  · intro s i hm habs
    have hany : (normalize_settings s).symbols.any
        (fun sym =>
          decide (sym.code = trim ((s.fixed_symbol).getD []))) = false := by
      rw [List.any_eq_false]
      intro sym hmem
      simp only [decide_eq_true_eq]
      exact habs sym hmem
    have hfix : (normalize_settings s).fixed_symbol =
        some (firstCode (normalize_settings s).symbols) := by
      rw [ns_fixed s, if_pos hm, if_neg (by rw [hany]; exact
        Bool.false_ne_true)]
    simp only [pick_display_symbol, if_neg (ns_symbols_ne_nil s),
      ns_display, hm, hfix]
    cases hs : (normalize_settings s).symbols with
    | nil => exact absurd hs (ns_symbols_ne_nil s)
    | cons s0 S2 =>
      simp [List.find?_cons, firstCode]

/-- C1 witness: the amended claim applied to the concrete settings of the
counterexample — raw selection yields `None`, normalized selection yields
the first symbol. -/
theorem claim_C1_witness :
    pick_display_symbol c1Settings 0 = none ∧
    pick_display_symbol (normalize_settings c1Settings) 0 =
      (normalize_settings c1Settings).symbols.head? := by
  constructor
  · exact claim_C1.1 c1Settings "B".toList 0 (by decide) (by decide)
      (by decide) (by decide)
  · exact claim_C1.2 c1Settings 0 (by decide) (by decide)

/-- C8 witness: with a response map pricing `GOLD` at close 105 / open 100
and a symbol list containing `GOLD` and the unpriced `MISS`, the trends map
assigns "▲" to `GOLD` and "—" to `MISS`. -/
theorem claim_C8_witness :
    mapLookup (apply_success_update c8Map c8Symbols ⟨[], [], 0⟩).trends
        "GOLD".toList = some "▲".toList ∧
    mapLookup (apply_success_update c8Map c8Symbols ⟨[], [], 0⟩).trends
        "MISS".toList = some "—".toList := by
  constructor
  · rw [claim_C8.2 c8Map c8Symbols ⟨[], [], 0⟩ "GOLD".toList (by decide)]
    decide
  · rw [claim_C8.2 c8Map c8Symbols ⟨[], [], 0⟩ "MISS".toList (by decide)]
    decide

end XauTray
